import Mathlib

/-!
Shallow embedding of the Pictionary game server (`src/server.py`).

The server is a single-file FastAPI websocket application.  We embed its
data model and the message handlers as pure Lean functions: each handler
takes the room state (plus the sender's identity, the current wall-clock
second, and explicit oracle values standing for the `random` draws) and
returns the new room state together with the list of messages sent.

Modelling conventions:
* the opaque websocket handle of a client is represented by a numeric
  identity `id` (Python object identity);
* `await safe_send(ws, payload)` becomes the event `Event.toClient id m`;
* a failure-free `await broadcast(room, payload, exclude)` becomes the
  event `Event.toAll exclude m`; the pruning behaviour of `broadcast`
  when sends fail is modelled separately and faithfully by
  `broadcastPrune`, which takes the set of client ids whose send raises;
* `random.choice(WORDS)` and `random.sample(WORDS, 3)` are modelled by
  explicit oracle parameters `w : String` and `opts : List String`;
* wall-clock time `int(time.time())` is an explicit parameter `now : Nat`.
-/

namespace Pictionary

/-- Python string helpers, defined over the character data of a string so
that they compute by kernel reduction.  `pySpace` is the default
whitespace set of Python `str.strip()`. -/
def pySpace (c : Char) : Bool :=
  c = ' ' || c = '\t' || c = '\n' || c = '\r' || c = '\x0b' || c = '\x0c'

/-- Python `s.strip()` -/
def pyStrip (s : String) : String :=
  ⟨((s.data.dropWhile pySpace).reverse.dropWhile pySpace).reverse⟩

/-- Python `s.lower()` (ASCII, which covers every string the server compares) -/
def pyLower (s : String) : String := ⟨s.data.map Char.toLower⟩

/-- Python `s.upper()` -/
def pyUpper (s : String) : String := ⟨s.data.map Char.toUpper⟩

/-- Python `s[:n]` -/
def pyTake (s : String) (n : Nat) : String := ⟨s.data.take n⟩

/-- The `BAD_WORDS` set (server.py line 15) -/
def BAD_WORDS : List String := ["badword", "dummy", "stupid"]

/-- The `WORDS` vocabulary (server.py line 25) -/
def WORDS : List String :=
  ["apple", "cat", "house", "tree", "car", "dog", "star", "flower",
   "plane", "bottle", "phone", "chair", "sun", "moon", "pizza", "fish",
   "elephant", "guitar", "book", "rocket", "computer", "ball", "mountain",
   "beach", "umbrella", "camera", "butterfly", "football"]

/-- Constant `DRAW_RATE_PER_SEC` -/
def DRAW_RATE_PER_SEC : Nat := 160

/-- Constant `GUESS_RATE_PER_SEC` -/
def GUESS_RATE_PER_SEC : Nat := 8

/-- Constant `ROUND_CLEAR_ON_CORRECT` -/
def ROUND_CLEAR_ON_CORRECT : Bool := true

/-- A regex word character (`\w` over ASCII): letter, digit or underscore.
Used for the `\b` boundaries of `BAD_WORDS_RE`. -/
def isWordChar (c : Char) : Bool := c.isAlphanum || c = '_'

/-- Case-insensitive literal match: if `w` (already lower-case) is a
prefix of `l` up to `Char.toLower`, return the remainder of `l`. -/
def stripCI : List Char → List Char → Option (List Char)
  | [], l => some l
  | _ :: _, [] => none
  | w :: ws, c :: cs => if w = c.toLower then stripCI ws cs else none

/-- Right word-boundary check for a match: the remainder must not start
with a word character. -/
def boundaryOk : List Char → Bool
  | [] => true
  | c :: _ => !isWordChar c

/-- Try the alternation `(badword|dummy|stupid)` at the head of `l`,
requiring the right `\b`; returns the remainder after the match. -/
def tryBadWord (l : List Char) : Option (List Char) :=
  BAD_WORDS.findSome? fun b =>
    match stripCI b.data l with
    | some rest => if boundaryOk rest then some rest else none
    | none => none

/-- One pass of `BAD_WORDS_RE.sub("***", text)`: scan the text, and at
each position whose left context is a word boundary try the alternation;
a match is replaced by `***` and scanning resumes after it (regex `sub`
finds non-overlapping matches left to right).  `fuel` bounds the
recursion; every step consumes at least one character, so `l.length`
fuel is always enough. -/
def censorAux : Nat → Bool → List Char → List Char
  | 0, _, l => l
  | _ + 1, _, [] => []
  | fuel + 1, prevW, c :: cs =>
    if prevW then
      c :: censorAux fuel (isWordChar c) cs
    else
      match tryBadWord (c :: cs) with
      | some rest => '*' :: '*' :: '*' :: censorAux fuel true rest
      | none => c :: censorAux fuel (isWordChar c) cs

/-- Function `censor(text)` (server.py line 20) -/
def censor (text : String) : String :=
  if text = "" then text
  else ⟨censorAux text.data.length false text.data⟩

/-- A connected client (`class Client`, server.py line 46).  The opaque
websocket handle is replaced by the numeric identity `id`. -/
structure Client where
  id : Nat
  name : String
  is_drawer : Bool
  is_admin : Bool
  last_tick : Nat
  draw_count : Nat
  guess_count : Nat
  deriving DecidableEq, Repr

/-- The `class RoomState` (server.py line 56).  `mode` is the literal string
`"random"` or `"choice"` exactly as in the source. -/
structure RoomState where
  clients : List Client
  drawer_index : Nat
  current_word : String
  mode : String
  locked : Bool
  deriving DecidableEq, Repr

/-- Constructor `RoomState.__init__` -/
def RoomState.init : RoomState :=
  { clients := [], drawer_index := 0, current_word := "", mode := "random", locked := false }

/-- Outbound message payloads (the `type` field of each `safe_send` /
`broadcast` call in server.py, with the other fields it carries). -/
inductive Msg where
  | joined (room you : String)
  | room_settings (mode : String) (locked : Bool)
  | players (ps : List (String × Bool × Bool))
  | role (r : String) (drawerName : String)
  | secret_word (word : String)
  | word_options (options : List String)
  | system (text : String)
  | error (message : String)
  | chat (sender text : String)
  | correct (player word : String)
  | feedback (result : String)
  | waiting
  | clear
  deriving DecidableEq, Repr

/-- A delivery: `toClient id m` is `safe_send` to the client with
identity `id`; `toAll exclude m` is a failure-free `broadcast` with the
given excluded sender. -/
inductive Event where
  | toClient (id : Nat) (m : Msg)
  | toAll (exclude : Option Nat) (m : Msg)
  deriving DecidableEq, Repr

/-- Function `broadcast(room, payload, exclude)` with delivery failures
(server.py line 70): every client except `exclude` is attempted; those
whose id lies in `deadIds` raise on send, are skipped as recipients, and
are removed from the client list after the iteration. -/
def broadcastPrune (room : RoomState) (payload : Msg) (exclude : Option Nat)
    (deadIds : List Nat) : RoomState × List Event :=
  let evs := room.clients.filterMap fun c =>
    if exclude = some c.id then none
    else if c.id ∈ deadIds then none
    else some (Event.toClient c.id payload)
  let kept := room.clients.filter fun c => !(exclude ≠ some c.id && c.id ∈ deadIds)
  ({ room with clients := kept }, evs)

/-- Function `tick_and_rate_limit(client)` (server.py line 92) -/
def tick_and_rate_limit (now : Nat) (c : Client) : Client :=
  if now ≠ c.last_tick then
    { c with last_tick := now, draw_count := 0, guess_count := 0 }
  else c

/-- The `players` broadcast of `send_players(room)` (server.py line 99) -/
def playersEv (room : RoomState) : Event :=
  .toAll none (.players (room.clients.map fun c => (c.name, c.is_drawer, c.is_admin)))

/-- The `room_settings` payload of `send_room_settings` (server.py line 103) -/
def settingsMsg (room : RoomState) : Msg := .room_settings room.mode room.locked

/-- Function `ensure_at_least_one_admin(room)` (server.py line 110) -/
def ensure_at_least_one_admin (room : RoomState) : RoomState :=
  match room.clients with
  | [] => room
  | c :: rest =>
    if room.clients.any (·.is_admin) then room
    else { room with clients := { c with is_admin := true } :: rest }

/-- Mutate the first client satisfying `p` (Python mutates the one object
found by identity or by `next(...)`). -/
def setFirst (p : Client → Bool) (f : Client → Client) : List Client → List Client
  | [] => []
  | c :: rest => if p c then f c :: rest else c :: setFirst p f rest

/-- Look up a client by identity (`client_obj` in the source). -/
def findClient (room : RoomState) (id : Nat) : Option Client :=
  room.clients.find? (·.id = id)

/-- Replace the stored client with identity `id`. -/
def updateClient (room : RoomState) (id : Nat) (c : Client) : RoomState :=
  { room with clients := setFirst (·.id = id) (fun _ => c) room.clients }

/-- Decimal digits of `n`, most significant first, as characters.
`fuel` bounds the recursion; `n` itself is always enough fuel since a
number has at most as many digits as its value (for `n ≥ 1`). -/
def decAux : Nat → Nat → List Char
  | 0, _ => []
  | fuel + 1, n =>
    if n < 10 then [Nat.digitChar n]
    else decAux fuel (n / 10) ++ [Nat.digitChar (n % 10)]

/-- Python `str(n)` for a natural number. -/
def decRepr (n : Nat) : String := ⟨decAux (n + 1) n⟩

/-- Value of a decimal character string (left inverse of `decRepr`). -/
def decVal (l : List Char) : Nat := l.foldl (fun a c => a * 10 + (c.toNat - 48)) 0

/-- The f-string `f"{base} ({n})"` of `unique_name` (server.py line 121). -/
def mkName (base : String) (n : Nat) : String :=
  base ++ " (" ++ decRepr n ++ ")"

/-- The `while` loop of `unique_name` (server.py line 119): starting at
`n`, advance while `f"{base} ({n})"` is already a member name; return
the final `n`.  `fuel` bounds the loop; `names.length + 1` candidates
always contain a free one (they are pairwise distinct), so that much
fuel never runs out. -/
def uniqueLoop (names : List String) (base : String) : Nat → Nat → Nat
  | 0, n => n
  | fuel + 1, n =>
    if mkName base n ∈ names then uniqueLoop names base fuel (n + 1) else n

/-- Function `unique_name(room, desired)` (server.py line 114) -/
def unique_name (room : RoomState) (desired : String) : String :=
  let names := room.clients.map (·.name)
  if desired ∈ names then
    mkName desired (uniqueLoop names desired (names.length + 1) 2)
  else desired

/-- Function `sanitize_name(raw)` (server.py line 154); the argument is optional
because `data.get("name")` may be `None`. -/
def sanitize_name (raw : Option String) : String :=
  let name := pyStrip (raw.getD "")
  let name := if name = "" then "Player" else name
  pyTake name 24

/-- The `for i, c in enumerate(room.clients): c.is_drawer = (i == room.drawer_index)`
loop of `start_round` (server.py line 131), with running index `i`. -/
def setDrawerFlags (di : Nat) : Nat → List Client → List Client
  | _, [] => []
  | i, c :: rest => { c with is_drawer := i == di } :: setDrawerFlags di (i + 1) rest

/-- Function `start_round(room)` (server.py line 123).  `w` stands for the
`random.choice(WORDS)` draw used in `random` mode and `opts` for the
`random.sample(WORDS, 3)` draw used in `choice` mode. -/
def start_round (room : RoomState) (w : String) (opts : List String) :
    RoomState × List Event :=
  if room.clients.length < 2 then
    (room, playersEv room :: room.clients.map fun c => .toClient c.id .waiting)
  else
    let di := room.drawer_index % room.clients.length
    let clients := setDrawerFlags di 0 room.clients
    let room := { room with drawer_index := di, clients := clients }
    let drawerName := ((clients.get? di).map (·.name)).getD ""
    let drawerId := ((clients.get? di).map (·.id)).getD 0
    let roleEvs := clients.map fun c =>
      Event.toClient c.id (.role (if c.is_drawer then "drawer" else "guesser") drawerName)
    if room.mode = "random" then
      let room := { room with current_word := w }
      (room, roleEvs ++ [.toClient drawerId (.secret_word w),
        playersEv room, .toAll none (settingsMsg room)])
    else
      let room := { room with current_word := "" }
      (room, roleEvs ++ [.toClient drawerId (.word_options opts),
        .toClient drawerId (.system "Choose a word from the options above before drawing."),
        playersEv room, .toAll none (settingsMsg room)])

/-- Normalisation of the requested room code at join
(server.py line 181): `str(data.get("room","")).upper().strip() or token`;
`gen` stands for the random `secrets.token_hex(2).upper()` draw. -/
def normalizeRoomCode (raw : String) (gen : String) : String :=
  let s := pyStrip (pyUpper raw)
  if s = "" then gen else s

/-- The `join` branch of `ws_endpoint` (server.py lines 180-200), for a
room already looked up in the registry.  `code` is the resolved room
code (used only in the `joined` reply), `id` the fresh connection
identity and `now` the wall clock used by `Client.__init__`. -/
def handleJoin (room : RoomState) (code : String) (id : Nat) (rawName : Option String)
    (now : Nat) (w : String) (opts : List String) : RoomState × List Event :=
  if room.locked then
    (room, [.toClient id (.error "Room is locked by admin")])
  else
    let name := unique_name room (sanitize_name rawName)
    let c : Client :=
      { id := id, name := name, is_drawer := false, is_admin := false,
        last_tick := now, draw_count := 0, guess_count := 0 }
    let room := { room with clients := room.clients ++ [c] }
    let room := ensure_at_least_one_admin room
    let evs := [Event.toClient id (.joined code name),
      Event.toClient id (settingsMsg room), playersEv room,
      Event.toAll none (.system (name ++ " joined."))]
    let res := start_round room w opts
    (res.1, evs ++ res.2)

/-- The `guess` branch of `ws_endpoint` (server.py lines 249-272),
preceded by the `tick_and_rate_limit` call of line 208. -/
def handleGuess (room : RoomState) (sid : Nat) (text : String) (now : Nat)
    (w : String) (opts : List String) : RoomState × List Event :=
  match findClient room sid with
  | none => (room, [])
  | some c₀ =>
    let c₁ := tick_and_rate_limit now c₀
    if c₁.is_drawer then
      (updateClient room sid c₁, [.toClient sid (.system "Drawer cannot guess.")])
    else
      let c₂ := { c₁ with guess_count := c₁.guess_count + 1 }
      let room := updateClient room sid c₂
      if c₂.guess_count > GUESS_RATE_PER_SEC then (room, [])
      else
        let guess_raw := pyStrip text
        if guess_raw = "" then (room, [])
        else
          let guess_sanitized := censor guess_raw
          let chatEv := Event.toAll none (.chat c₂.name guess_sanitized)
          if room.current_word ≠ "" ∧ pyLower guess_raw = pyLower room.current_word then
            let correctEv := Event.toAll none (.correct c₂.name room.current_word)
            if room.clients.length ≥ 2 then
              let room := { room with
                drawer_index := (room.drawer_index + 1) % room.clients.length,
                current_word := "" }
              let clearEvs := if ROUND_CLEAR_ON_CORRECT then [Event.toAll none .clear] else []
              let res := start_round room w opts
              (res.1, chatEv :: correctEv :: clearEvs ++ res.2)
            else (room, [chatEv, correctEv])
          else (room, [chatEv, .toClient sid (.feedback "incorrect")])

/-- The `pick_word` branch of `ws_endpoint` (server.py lines 275-281),
preceded by the `tick_and_rate_limit` call of line 208. -/
def handlePickWord (room : RoomState) (sid : Nat) (wordRaw : String) (now : Nat) :
    RoomState × List Event :=
  match findClient room sid with
  | none => (room, [])
  | some c₀ =>
    let c₁ := tick_and_rate_limit now c₀
    let room := updateClient room sid c₁
    if !c₁.is_drawer then (room, [])
    else
      let word := pyLower (pyStrip wordRaw)
      if word ≠ "" ∧ word ∈ WORDS then
        ({ room with current_word := word }, [.toClient sid (.secret_word word)])
      else (room, [])

/-- The `admin` branch of `ws_endpoint` (server.py lines 284-322),
preceded by the `tick_and_rate_limit` call of line 208.  `argName` and
`argMode` are the `name` and `mode` fields of the payload; `w`/`opts`
feed the `start_round` triggered by a mode change.  A `kick` only sends
the notice and closes the target's socket; the removal itself happens in
the target's own disconnect cleanup (`handleLeave`). -/
def handleAdmin (room : RoomState) (sid : Nat) (action : String)
    (argName : String) (argMode : String) (now : Nat) (w : String)
    (opts : List String) : RoomState × List Event :=
  match findClient room sid with
  | none => (room, [])
  | some c₀ =>
    let c₁ := tick_and_rate_limit now c₀
    let room := updateClient room sid c₁
    if !c₁.is_admin then (room, [.toClient sid (.error "Admin only")])
    else if action = "lock" then
      let room := { room with locked := true }
      (room, [.toAll none (settingsMsg room)])
    else if action = "unlock" then
      let room := { room with locked := false }
      (room, [.toAll none (settingsMsg room)])
    else if action = "mode" then
      let new_mode := pyLower argMode
      if new_mode = "random" ∨ new_mode = "choice" then
        let room := { room with mode := new_mode }
        let settingsEv := Event.toAll none (settingsMsg room)
        let room := { room with current_word := "" }
        let res := start_round room w opts
        (res.1, settingsEv :: Event.toAll none .clear :: res.2)
      else (room, [])
    else if action = "kick" then
      let tname := pyStrip argName
      match room.clients.find? (·.name = tname) with
      | some t => (room, [.toClient t.id (.system "You were kicked by admin.")])
      | none => (room, [])
    else if action = "make_admin" then
      let tname := pyStrip argName
      if (room.clients.find? (·.name = tname)).isSome then
        let room := { room with
          clients := setFirst (·.name = tname) (fun c => { c with is_admin := true }) room.clients }
        (room, [playersEv room])
      else (room, [])
    else if action = "revoke_admin" then
      let tname := pyStrip argName
      if (room.clients.find? (·.name = tname)).isSome then
        let room := { room with
          clients := setFirst (·.name = tname) (fun c => { c with is_admin := false }) room.clients }
        let room := ensure_at_least_one_admin room
        (room, [playersEv room])
      else (room, [])
    else (room, [])

/-- The disconnect cleanup of `ws_endpoint` (the `finally` block,
server.py lines 326-346), at room level: the removal of the client, the
admin/drawer repair and the notifications.  The registry-level
`rooms.pop` of line 348 is modelled in `regLeave`. -/
def handleLeave (room : RoomState) (id : Nat) (w : String) (opts : List String) :
    RoomState × List Event :=
  match findClient room id with
  | none => (room, [])
  | some c =>
    let idx := room.clients.findIdx (·.id = id)
    let was_drawer := c.is_drawer
    let name := c.name
    let room := { room with clients := room.clients.eraseP (·.id = id) }
    let room := ensure_at_least_one_admin room
    if room.clients = [] then (room, [])
    else
      let room :=
        if idx < room.drawer_index ∨ room.drawer_index ≥ room.clients.length then
          { room with drawer_index := room.drawer_index % room.clients.length }
        else room
      if was_drawer then
        let room := { room with
          drawer_index := room.drawer_index % room.clients.length, current_word := "" }
        let res := start_round room w opts
        (res.1, Event.toAll none .clear :: res.2 ++
          [.toAll none (.system (name ++ " left.")), playersEv res.1])
      else
        (room, [.toAll none (.system (name ++ " left.")), playersEv room])

/-- The two rate-limited action kinds. -/
inductive RL where
  | draw
  | guess
  deriving DecidableEq, Repr

/-- The per-second ceiling of each kind
(`DRAW_RATE_PER_SEC` / `GUESS_RATE_PER_SEC`). -/
def rlLimit : RL → Nat
  | .draw => DRAW_RATE_PER_SEC
  | .guess => GUESS_RATE_PER_SEC

/-- The counter of a kind on a client. -/
def countOf : RL → Client → Nat
  | .draw, c => c.draw_count
  | .guess, c => c.guess_count

/-- One rate-limited action: the `tick_and_rate_limit(client_obj)` call
of line 208 followed by the increment-and-compare of the `draw` branch
(lines 216-218: `draw_count += 1; if draw_count > DRAW_RATE_PER_SEC: continue`)
or of the `guess` branch (lines 253-254).  Returns the updated client
and whether the action was accepted. -/
def rateStep (k : RL) (now : Nat) (c : Client) : Client × Bool :=
  let c := tick_and_rate_limit now c
  match k with
  | .draw =>
    let c := { c with draw_count := c.draw_count + 1 }
    (c, !(c.draw_count > DRAW_RATE_PER_SEC))
  | .guess =>
    let c := { c with guess_count := c.guess_count + 1 }
    (c, !(c.guess_count > GUESS_RATE_PER_SEC))

/-- Run `n` actions of kind `k`, all during wall-clock second `now`;
returns the final client and the list of acceptance verdicts in order. -/
def runRL (k : RL) (now : Nat) : Nat → Client → Client × List Bool
  | 0, c => (c, [])
  | n + 1, c =>
    let r := rateStep k now c
    let r' := runRL k now n r.1
    (r'.1, r.2 :: r'.2)

/-- The process-wide room registry `rooms` (server.py line 64), as an
association list keyed by room code. -/
abbrev Registry := List (String × RoomState)

/-- Lookup in the registry. -/
def regFind (R : Registry) (code : String) : Option RoomState :=
  ((R.find? fun p => p.1 = code)).map (·.2)

/-- Store (replace-or-append) an entry. -/
def regSet (R : Registry) (code : String) (room : RoomState) : Registry :=
  if (R.find? fun p => p.1 = code).isSome then
    R.map fun p => if p.1 = code then (code, room) else p
  else R ++ [(code, room)]

/-- Removal `rooms.pop(code, None)`. -/
def regRemove (R : Registry) (code : String) : Registry :=
  R.filter fun p => p.1 ≠ code

/-- Registry-level join (server.py lines 180-199): the room code is
normalised, `rooms[candidate_room]` default-constructs a missing entry
(`defaultdict`), the locked check replies and stops, and otherwise
`handleJoin` runs on the entry. -/
def regJoin (R : Registry) (rawRoom gen : String) (id : Nat) (rawName : Option String)
    (now : Nat) (w : String) (opts : List String) : Registry × List Event :=
  let code := normalizeRoomCode rawRoom gen
  let room := (regFind R code).getD RoomState.init
  let R := regSet R code room
  if room.locked then (R, [.toClient id (.error "Room is locked by admin")])
  else
    let res := handleJoin room code id rawName now w opts
    (regSet R code res.1, res.2)

/-- Registry-level disconnect cleanup (server.py lines 326-348):
`rooms.get(room_code)` (no default construction), the room-level
cleanup, and `rooms.pop(room_code, None)` when the client list has
become empty. -/
def regLeave (R : Registry) (code : String) (id : Nat) (w : String)
    (opts : List String) : Registry × List Event :=
  match regFind R code with
  | none => (R, [])
  | some room =>
    if (findClient room id).isSome then
      let res := handleLeave room id w opts
      if res.1.clients = [] then (regRemove R code, res.2)
      else (regSet R code res.1, res.2)
    else (R, [])

/-- A delivery failure observed while broadcasting into a room: the
registry keeps the entry, only the room's client list is pruned
(server.py lines 70-82 never touch `rooms`). -/
def regPrune (R : Registry) (code : String) (payload : Msg) (exclude : Option Nat)
    (deadIds : List Nat) : Registry × List Event :=
  match regFind R code with
  | none => (R, [])
  | some room =>
    let res := broadcastPrune room payload exclude deadIds
    (regSet R code res.1, res.2)

/-- The operations of claim C1 on a single room: join, disconnect
cleanup, promote (`admin make_admin`) and revoke (`admin revoke_admin`).
Each carries the connection identity, the wall clock and the random
draws its handler consumes. -/
inductive Op where
  | join (id : Nat) (rawName : Option String) (now : Nat) (w : String) (opts : List String)
  | leave (id : Nat) (w : String) (opts : List String)
  | makeAdmin (sid : Nat) (target : String) (now : Nat)
  | revokeAdmin (sid : Nat) (target : String) (now : Nat)

/-- Apply one operation to a room (the room code of the `joined` reply
is irrelevant to the state and fixed to `""`). -/
def applyOp (room : RoomState) : Op → RoomState
  | .join id raw now w opts => (handleJoin room "" id raw now w opts).1
  | .leave id w opts => (handleLeave room id w opts).1
  | .makeAdmin sid t now => (handleAdmin room sid "make_admin" t "" now "" []).1
  | .revokeAdmin sid t now => (handleAdmin room sid "revoke_admin" t "" now "" []).1

/-- Registry-level operations of claim C7 (no delivery failures). -/
inductive RegOp where
  | join (rawRoom gen : String) (id : Nat) (rawName : Option String) (now : Nat)
      (w : String) (opts : List String)
  | leave (code : String) (id : Nat) (w : String) (opts : List String)

/-- Apply one registry operation. -/
def applyReg (R : Registry) : RegOp → Registry
  | .join rawRoom gen id rawName now w opts => (regJoin R rawRoom gen id rawName now w opts).1
  | .leave code id w opts => (regLeave R code id w opts).1

/-! ### Concrete states used by the counterexamples and witnesses -/

/-- A drawer who is also the admin (the state of the first joiner of a
two-client room once a round has started). -/
def alice : Client :=
  { id := 0, name := "alice", is_drawer := true, is_admin := true,
    last_tick := 5, draw_count := 0, guess_count := 0 }

/-- The second client: a guesser, not an admin. -/
def bob : Client :=
  { id := 1, name := "bob", is_drawer := false, is_admin := false,
    last_tick := 5, draw_count := 0, guess_count := 0 }

/-- A two-client room mid-round in `random` mode with the word `apple`. -/
def demoRoom : RoomState :=
  { clients := [alice, bob], drawer_index := 0, current_word := "apple",
    mode := "random", locked := false }

/-! ### Theorems -/

/-- The number of admins in a room. -/
def adminCount (room : RoomState) : Nat := room.clients.countP (·.is_admin)

/-- A room is admin-sound when, if non-empty, some client is an admin. -/
def adminOK (room : RoomState) : Prop :=
  room.clients ≠ [] → room.clients.any (·.is_admin) = true

theorem length_setDrawerFlags (di i : Nat) (l : List Client) :
    (setDrawerFlags di i l).length = l.length := by
  induction l generalizing i with
  | nil => rfl
  | cons c rest ih => simp [setDrawerFlags, ih]

theorem length_setFirst (p : Client → Bool) (f : Client → Client) (l : List Client) :
    (setFirst p f l).length = l.length := by
  induction l with
  | nil => rfl
  | cons c rest ih =>
    simp only [setFirst]
    split <;> simp [ih]

theorem clients_ensure (room : RoomState) :
    (ensure_at_least_one_admin room).clients =
      (match room.clients with
        | [] => room.clients
        | c :: rest =>
          if room.clients.any (·.is_admin) then room.clients
          else { c with is_admin := true } :: rest) := by
  obtain ⟨cs, di, cw, m, lk⟩ := room
  cases cs with
  | nil => rfl
  | cons c rest =>
    simp only [ensure_at_least_one_admin]
    split <;> rfl

theorem length_ensure (room : RoomState) :
    (ensure_at_least_one_admin room).clients.length = room.clients.length := by
  rw [clients_ensure]
  obtain ⟨cs, di, cw, m, lk⟩ := room
  cases cs with
  | nil => rfl
  | cons c rest =>
    simp only []
    split <;> rfl

theorem length_start_round (room : RoomState) (w : String) (opts : List String) :
    (start_round room w opts).1.clients.length = room.clients.length := by
  unfold start_round
  split
  · rfl
  · simp only []
    split <;> simp [length_setDrawerFlags]

theorem ensure_any_admin (room : RoomState) (h : room.clients ≠ []) :
    (ensure_at_least_one_admin room).clients.any (·.is_admin) = true := by
  obtain ⟨cs, di, cw, m, lk⟩ := room
  cases cs with
  | nil => exact absurd rfl h
  | cons c rest =>
    simp only [ensure_at_least_one_admin]
    split
    · next hany => exact hany
    · simp

theorem any_admin_setDrawerFlags (di i : Nat) (l : List Client) :
    (setDrawerFlags di i l).any (·.is_admin) = l.any (·.is_admin) := by
  induction l generalizing i with
  | nil => rfl
  | cons c rest ih => simp [setDrawerFlags, ih]

theorem any_admin_start_round (room : RoomState) (w : String) (opts : List String) :
    (start_round room w opts).1.clients.any (·.is_admin) = room.clients.any (·.is_admin) := by
  unfold start_round
  split
  · rfl
  · simp only []
    split <;> simp [any_admin_setDrawerFlags]

theorem any_admin_setFirst_update (l : List Client) (p : Client → Bool) (c₀ c₁ : Client)
    (hfind : l.find? p = some c₀) (h : c₁.is_admin = c₀.is_admin) :
    (setFirst p (fun _ => c₁) l).any (·.is_admin) = l.any (·.is_admin) := by
  induction l with
  | nil => simp at hfind
  | cons c rest ih =>
    by_cases hp : p c
    · rw [List.find?_cons_of_pos _ hp] at hfind
      injection hfind with hfind
      subst hfind
      simp [setFirst, hp, h]
    · rw [List.find?_cons_of_neg _ hp] at hfind
      simp [setFirst, hp, ih hfind]

theorem any_admin_setFirst_true (l : List Client) (p : Client → Bool)
    (f : Client → Client) (hf : ∀ c, c.is_admin = true → (f c).is_admin = true)
    (h : l.any (·.is_admin) = true) :
    (setFirst p f l).any (·.is_admin) = true := by
  induction l with
  | nil => simp at h
  | cons c rest ih =>
    simp only [List.any_cons, Bool.or_eq_true] at h
    by_cases hp : p c
    · simp only [setFirst, hp, if_true, List.any_cons, Bool.or_eq_true]
      rcases h with h | h
      · exact Or.inl (hf c h)
      · exact Or.inr h
    · simp only [setFirst, hp, if_false, Bool.false_eq_true, List.any_cons,
        Bool.or_eq_true]
      rcases h with h | h
      · exact Or.inl h
      · exact Or.inr (ih h)

theorem find?_some_ne_nil {l : List Client} {p : Client → Bool} {c : Client}
    (h : l.find? p = some c) : l ≠ [] := by
  intro hnil; subst hnil; simp at h

theorem setFirst_ne_nil {l : List Client} {p : Client → Bool} {f : Client → Client}
    (h : l ≠ []) : setFirst p f l ≠ [] := by
  intro hc
  apply h
  cases l with
  | nil => rfl
  | cons c rest =>
    exfalso
    simp only [setFirst] at hc
    split at hc <;> simp at hc

theorem adminOK_handleJoin (room : RoomState) (code : String) (id : Nat)
    (raw : Option String) (now : Nat) (w : String) (opts : List String)
    (h : adminOK room) : adminOK (handleJoin room code id raw now w opts).1 := by
  unfold handleJoin
  split
  · exact h
  · intro _
    rw [any_admin_start_round]
    apply ensure_any_admin
    simp

theorem ensure_any_admin' (room : RoomState)
    (h : (ensure_at_least_one_admin room).clients ≠ []) :
    (ensure_at_least_one_admin room).clients.any (·.is_admin) = true := by
  rcases hc : room.clients with _ | ⟨c, rest⟩
  · exfalso
    apply h
    obtain ⟨cs, di, cw, m, lk⟩ := room
    simp only at hc
    subst hc
    rfl
  · exact ensure_any_admin room (by rw [hc]; simp)

theorem adminOK_handleLeave (room : RoomState) (id : Nat) (w : String)
    (opts : List String) (h : adminOK room) :
    adminOK (handleLeave room id w opts).1 := by
  unfold handleLeave
  cases hf : findClient room id with
  | none => exact h
  | some c =>
    simp only []
    split
    · next hemp =>
      intro hne
      exact absurd hemp hne
    · next hemp =>
      split
      · intro _
        rw [any_admin_start_round]
        split <;> exact ensure_any_admin' _ hemp
      · intro _
        split <;> exact ensure_any_admin' _ hemp

theorem adminOK_handleAdmin (room : RoomState) (sid : Nat) (action : String)
    (argName argMode : String) (now : Nat) (w : String) (opts : List String)
    (h : adminOK room) :
    adminOK (handleAdmin room sid action argName argMode now w opts).1 := by
  unfold handleAdmin
  cases hf : findClient room sid with
  | none => exact h
  | some c₀ =>
    have hne : room.clients ≠ [] := find?_some_ne_nil hf
    have hany : room.clients.any (·.is_admin) = true := h hne
    have hupd : (updateClient room sid (tick_and_rate_limit now c₀)).clients.any
        (·.is_admin) = true := by
      unfold updateClient
      simp only []
      rw [any_admin_setFirst_update room.clients _ c₀ _ hf]
      · exact hany
      · unfold tick_and_rate_limit
        split <;> rfl
    have hupdOK : adminOK (updateClient room sid (tick_and_rate_limit now c₀)) :=
      fun _ => hupd
    simp only []
    split
    · exact hupdOK
    · split
      · exact fun _ => hupd
      · split
        · exact fun _ => hupd
        · split
          · -- mode change
            split
            · intro _
              rw [any_admin_start_round]
              exact hupd
            · exact hupdOK
          · split
            · -- kick
              split <;> exact hupdOK
            · split
              · -- make_admin
                split
                · intro _
                  exact any_admin_setFirst_true _ _ _ (fun c _ => rfl) hupd
                · exact hupdOK
              · split
                · -- revoke_admin
                  split
                  · intro _
                    apply ensure_any_admin
                    apply setFirst_ne_nil
                    intro hnil
                    rw [hnil] at hupd
                    simp at hupd
                  · exact hupdOK
                · exact hupdOK

theorem adminOK_applyOp (room : RoomState) (op : Op) (h : adminOK room) :
    adminOK (applyOp room op) := by
  cases op with
  | join id raw now w opts => exact adminOK_handleJoin room "" id raw now w opts h
  | leave id w opts => exact adminOK_handleLeave room id w opts h
  | makeAdmin sid t now => exact adminOK_handleAdmin room sid "make_admin" t "" now "" [] h
  | revokeAdmin sid t now => exact adminOK_handleAdmin room sid "revoke_admin" t "" now "" [] h

theorem adminOK_foldl (ops : List Op) (room : RoomState) (h : adminOK room) :
    adminOK (ops.foldl applyOp room) := by
  induction ops generalizing room with
  | nil => exact h
  | cons op rest ih => exact ih (applyOp room op) (adminOK_applyOp room op h)

/-- C1, counterexample: after `join alice; join bob; alice promotes bob`
the room is non-empty and has two admins, so "exactly one client has
`isAdmin = true`" fails (`make_admin` adds admins without demoting). -/
theorem admin_exactly_one_fails :
    (([Op.join 0 (some "alice") 5 "apple" [], Op.join 1 (some "bob") 5 "cat" [],
        Op.makeAdmin 0 "bob" 5].foldl applyOp RoomState.init).clients ≠ []) ∧
    adminCount ([Op.join 0 (some "alice") 5 "apple" [], Op.join 1 (some "bob") 5 "cat" [],
        Op.makeAdmin 0 "bob" 5].foldl applyOp RoomState.init) = 2 := by
  decide

/-- C1 (amended): for every non-empty room, after any sequence of join,
leave, promote (`make_admin`) and revoke (`revoke_admin`) operations,
at least one client in the room has `isAdmin = true`. -/
theorem admin_at_least_one (ops : List Op)
    (h : (ops.foldl applyOp RoomState.init).clients ≠ []) :
    (ops.foldl applyOp RoomState.init).clients.any (·.is_admin) = true :=
  adminOK_foldl ops RoomState.init (fun hn => absurd rfl hn) h

/-- Witness for `admin_at_least_one` at a concrete operation sequence. -/
theorem admin_at_least_one_witness :
    (([Op.join 0 (some "alice") 5 "apple" []].foldl applyOp RoomState.init).clients ≠ []) ∧
    ([Op.join 0 (some "alice") 5 "apple" []].foldl applyOp
        RoomState.init).clients.any (·.is_admin) = true :=
  ⟨by decide, admin_at_least_one [Op.join 0 (some "alice") 5 "apple" []] (by decide)⟩

theorem tick_same (now : Nat) (c : Client) (h : c.last_tick = now) :
    tick_and_rate_limit now c = c := by
  unfold tick_and_rate_limit
  rw [if_neg]
  simp [h]

theorem rateStep_same (k : RL) (now : Nat) (c : Client) (h : c.last_tick = now) :
    rateStep k now c =
      (match k with
        | .draw => ({ c with draw_count := c.draw_count + 1 },
            !(c.draw_count + 1 > DRAW_RATE_PER_SEC))
        | .guess => ({ c with guess_count := c.guess_count + 1 },
            !(c.guess_count + 1 > GUESS_RATE_PER_SEC))) := by
  unfold rateStep
  rw [tick_same now c h]

theorem runRL_verdict (k : RL) (now : Nat) :
    ∀ (n : Nat) (c : Client), c.last_tick = now → ∀ i, i < n →
      (runRL k now n c).2.getD i false = decide (countOf k c + (i + 1) ≤ rlLimit k) := by
  intro n
  induction n with
  | zero => exact fun c _ i hi => absurd hi (Nat.not_lt_zero i)
  | succ n ih =>
    intro c ht i hi
    rw [show runRL k now (n + 1) c =
      ((runRL k now n (rateStep k now c).1).1,
        (rateStep k now c).2 :: (runRL k now n (rateStep k now c).1).2) from rfl]
    rw [rateStep_same k now c ht]
    cases k with
    | draw =>
      cases i with
      | zero =>
        simp only [List.getD_cons_zero, countOf]
        by_cases h : c.draw_count + 1 ≤ DRAW_RATE_PER_SEC
        · simp [rlLimit, h, Nat.not_lt.mpr h]
        · simp [rlLimit, h, Nat.lt_of_not_le h]
      | succ i =>
        simp only [List.getD_cons_succ]
        rw [ih _ (by exact ht) i (Nat.lt_of_succ_lt_succ hi)]
        have harith : c.draw_count + 1 + (i + 1) = c.draw_count + (i + 1 + 1) := by omega
        dsimp only [countOf]
        rw [harith]
    | guess =>
      cases i with
      | zero =>
        simp only [List.getD_cons_zero, countOf]
        by_cases h : c.guess_count + 1 ≤ GUESS_RATE_PER_SEC
        · simp [rlLimit, h, Nat.not_lt.mpr h]
        · simp [rlLimit, h, Nat.lt_of_not_le h]
      | succ i =>
        simp only [List.getD_cons_succ]
        rw [ih _ (by exact ht) i (Nat.lt_of_succ_lt_succ hi)]
        have harith : c.guess_count + 1 + (i + 1) = c.guess_count + (i + 1 + 1) := by omega
        dsimp only [countOf]
        rw [harith]

/-- C3: for each rate-limited kind (draw with ceiling 160, guess with
ceiling 8): (1) on the first action whose second differs from the stored
bucket second, both counters reset to zero and the bucket second
advances; (2) within one second, starting from a fresh bucket, the i-th
occurrence is accepted exactly when `i + 1 ≤ N`, i.e. the first `N` are
accepted and the rest refused; (3) a refused guess is silently dropped:
the handler sends nothing. -/
theorem rate_limit_window :
    (∀ now c, now ≠ c.last_tick →
      tick_and_rate_limit now c =
        { c with last_tick := now, draw_count := 0, guess_count := 0 }) ∧
    (∀ k now n c i, c.last_tick = now → countOf k c = 0 → i < n →
      (runRL k now n c).2.getD i false = decide (i + 1 ≤ rlLimit k)) ∧
    (∀ room sid text now w opts c, findClient room sid = some c →
      (tick_and_rate_limit now c).is_drawer = false →
      (tick_and_rate_limit now c).guess_count + 1 > GUESS_RATE_PER_SEC →
      (handleGuess room sid text now w opts).2 = []) := by
  refine ⟨?_, ?_, ?_⟩
  · intro now c h
    unfold tick_and_rate_limit
    rw [if_pos h]
  · intro k now n c i ht h0 hi
    rw [runRL_verdict k now n c ht i hi, h0, Nat.zero_add]
  · intro room sid text now w opts c hfind hdr hrl
    unfold handleGuess
    rw [hfind]
    simp only [hdr, Bool.false_eq_true, if_false]
    rw [if_pos]
    exact hrl

/-- A guesser whose bucket for the current second is already exhausted. -/
def tiredBob : Client := { bob with guess_count := 8 }

/-- Room `demoRoom` with the exhausted guesser. -/
def tiredRoom : RoomState := { demoRoom with clients := [alice, tiredBob] }

/-- Witness for `rate_limit_window` at concrete inputs: a reset at a new
second, the ninth guess in one second refused, and a rate-limited guess
handled without any reply. -/
theorem rate_limit_window_witness :
    (tick_and_rate_limit 6 bob =
      { bob with last_tick := 6, draw_count := 0, guess_count := 0 }) ∧
    ((runRL .guess 5 9 bob).2.getD 8 false = decide (8 + 1 ≤ rlLimit .guess)) ∧
    ((handleGuess tiredRoom 1 "hi" 5 "x" []).2 = []) := by
  refine ⟨?_, ?_, ?_⟩
  · exact rate_limit_window.1 6 bob (by decide)
  · exact rate_limit_window.2.1 .guess 5 9 bob 8 (by decide) (by decide) (by decide)
  · exact rate_limit_window.2.2 tiredRoom 1 "hi" 5 "x" [] tiredBob (by decide)
      (by decide) (by decide)

/-- C4, failing input: the `pick_word` handler checks only that the
sender is the drawer; in `demoRoom` the mode is `"random"` and the word
is `"apple"`, yet the drawer's `pick_word "cat"` is accepted: it
overwrites `currentWord` and a `secret_word` reply is sent, although the
claim (and the code's own comment `choice mode; drawer only`) requires
`mode = choice`. -/
theorem pick_word_ignores_mode :
    demoRoom.mode = "random" ∧ demoRoom.current_word = "apple" ∧
    (handlePickWord demoRoom 0 "cat" 5).1.current_word = "cat" ∧
    (handlePickWord demoRoom 0 "cat" 5).2 = [Event.toClient 0 (Msg.secret_word "cat")] := by
  decide

/-- C5, counterexample: in `demoRoom` the guesser `bob` disconnects,
dropping the count to 1; the remaining client (the drawer `alice`)
keeps `isDrawer = true` and no `waiting` message is sent, because
the cleanup only calls `start_round` when the leaver was the drawer and
`start_round` below 2 clients does not clear drawer flags. -/
theorem below_two_keeps_drawer_flag :
    ((handleLeave demoRoom 1 "dog" []).1.clients.length = 1) ∧
    ((handleLeave demoRoom 1 "dog" []).1.clients.any (·.is_drawer) = true) ∧
    (∀ e ∈ (handleLeave demoRoom 1 "dog" []).2, e ≠ Event.toClient 0 Msg.waiting) := by
  decide

/-- C5 (amended): when the departure of the current (unique) drawer
makes the client count of a 2-client room fall to 1, afterwards no
client in the room has `isDrawer = true` and every remaining client
receives a `waiting` message.  (When a non-drawer departs instead, the
remaining drawer keeps its flag and no `waiting` is sent — see the
counterexample.) -/
theorem drawer_leave_below_two (room : RoomState) (lid : Nat) (w : String)
    (opts : List String)
    (h2 : room.clients.length = 2)
    (hdr : ∀ c ∈ room.clients, c.is_drawer = true ↔ c.id = lid)
    (hnd : (room.clients.map (·.id)).Nodup)
    (hmem : ∃ c ∈ room.clients, c.id = lid) :
    (∀ c ∈ (handleLeave room lid w opts).1.clients, c.is_drawer = false) ∧
    (∀ c ∈ (handleLeave room lid w opts).1.clients,
      Event.toClient c.id Msg.waiting ∈ (handleLeave room lid w opts).2) ∧
    (handleLeave room lid w opts).1.clients.length = 1 := by
  obtain ⟨cs, di, cw, m, lk⟩ := room
  simp only at h2 hdr hnd hmem ⊢
  rcases cs with _ | ⟨c1, _ | ⟨c2, _ | ⟨c3, rest⟩⟩⟩
  · simp at h2
  · simp at h2
  swap
  · simp at h2
  have hne : c1.id ≠ c2.id := by
    simp [List.nodup_cons] at hnd
    exact hnd
  by_cases hc1 : c1.id = lid
  · -- the leaver is c1 (the first client)
    have h1d : c1.is_drawer = true := (hdr c1 (by simp)).mpr hc1
    have h2d : c2.is_drawer = false := by
      rcases hb : c2.is_drawer with _ | _
      · rfl
      · exact absurd (hc1 ▸ (hdr c2 (by simp)).mp hb) (fun h => hne h.symm)
    by_cases hadm : c2.is_admin = true <;>
      by_cases hdi : List.findIdx (fun x => decide (x.id = lid)) [c1, c2] < di ∨ 1 ≤ di <;>
      simp [handleLeave, findClient, hc1, h1d, h2d, hne, ensure_at_least_one_admin,
        start_round, playersEv, Nat.mod_one, hadm, hdi]
  · have hc2 : c2.id = lid := by
      rcases hmem with ⟨c, hc, hcid⟩
      simp only [List.mem_cons, List.not_mem_nil, or_false] at hc
      rcases hc with rfl | rfl
      · exact absurd hcid hc1
      · exact hcid
    have h2d : c2.is_drawer = true := (hdr c2 (by simp)).mpr hc2
    have h1d : c1.is_drawer = false := by
      rcases hb : c1.is_drawer with _ | _
      · rfl
      · exact absurd ((hdr c1 (by simp)).mp hb) hc1
    by_cases hadm : c1.is_admin = true <;>
      by_cases hdi : List.findIdx (fun x => decide (x.id = lid)) [c1, c2] < di ∨ 1 ≤ di <;>
      simp [handleLeave, findClient, hc1, hc2, h1d, h2d, hne, ensure_at_least_one_admin,
        start_round, playersEv, Nat.mod_one, hadm, hdi]


/-- Witness for `drawer_leave_below_two`: the drawer `alice` leaves
`demoRoom`. -/
theorem drawer_leave_below_two_witness :
    (∀ c ∈ (handleLeave demoRoom 0 "dog" []).1.clients, c.is_drawer = false) ∧
    (∀ c ∈ (handleLeave demoRoom 0 "dog" []).1.clients,
      Event.toClient c.id Msg.waiting ∈ (handleLeave demoRoom 0 "dog" []).2) ∧
    (handleLeave demoRoom 0 "dog" []).1.clients.length = 1 :=
  drawer_leave_below_two demoRoom 0 "dog" [] (by decide) (by decide) (by decide)
    (by decide)

/-- The 24-character name used by the C9 counterexample. -/
def longName : String := "AAAAAAAAAAAAAAAAAAAAAAAA"

/-- C9, counterexample: two clients join requesting the same 24-character
name; the second's stored name is the sanitized name plus the suffix
`" (2)"`, i.e. 28 characters, exceeding the claimed 24-character bound
after uniqueness resolution. -/
theorem stored_name_exceeds_24 :
    longName.length = 24 ∧
    ((handleJoin (handleJoin RoomState.init "R" 0 (some longName) 5 "apple" []).1
        "R" 1 (some longName) 5 "apple" []).1.clients.map (·.name.length)) = [24, 28] := by
  decide

/-- C9 (amended): the requested name is trimmed, defaulted to `"Player"`
when empty and clamped to 24 characters, so `sanitize_name` always
returns at most 24 characters; the stored name equals the sanitized name
(and hence also respects the bound) whenever no current member already
carries it, while on a collision `unique_name` appends `" (n)"` and the
stored name may exceed 24 characters. -/
theorem sanitize_name_bound (raw : Option String) (room : RoomState) :
    (sanitize_name raw).length ≤ 24 ∧
    (sanitize_name raw ∉ room.clients.map (·.name) →
      unique_name room (sanitize_name raw) = sanitize_name raw) := by
  constructor
  · show (pyTake _ 24).length ≤ 24
    unfold pyTake
    show (List.take 24 _).length ≤ 24
    rw [List.length_take]
    exact Nat.min_le_left _ _
  · intro h
    unfold unique_name
    simp [h]

/-- Witness for `sanitize_name_bound`: a fresh name joining `demoRoom`. -/
theorem sanitize_name_bound_witness :
    (sanitize_name (some "carol")).length ≤ 24 ∧
    unique_name demoRoom (sanitize_name (some "carol")) = sanitize_name (some "carol") :=
  ⟨(sanitize_name_bound (some "carol") demoRoom).1,
    (sanitize_name_bound (some "carol") demoRoom).2 (by decide)⟩

/-- C6, counterexample: in `demoRoom` a broadcast whose delivery to the
admin-and-drawer `alice` (id 0) fails removes her from the room, but no
admin or drawer reassignment and no notification runs: the surviving
room has no admin and the only emitted event is the payload delivery to
`bob`, whereas the natural-disconnect cleanup of the same client makes
`bob` admin. -/
theorem send_failure_not_like_disconnect :
    ((broadcastPrune demoRoom (.system "hi") none [0]).1.clients.any (·.is_admin) = false) ∧
    ((broadcastPrune demoRoom (.system "hi") none [0]).2 =
      [Event.toClient 1 (Msg.system "hi")]) ∧
    ((handleLeave demoRoom 0 "dog" []).1.clients.any (·.is_admin) = true) := by
  decide

/-- C6 (amended): a delivery failure during a broadcast removes exactly
the failed clients from the room's client list after the iteration and
is never surfaced to the sender: every emitted event is a plain delivery
of the payload to a surviving non-excluded member, the surviving clients
are kept unchanged, and the rest of the room state is untouched — the
pruning itself performs no admin or drawer reassignment and no
notification. -/
theorem broadcastPrune_spec (room : RoomState) (payload : Msg)
    (excl : Option Nat) (dead : List Nat) :
    (∀ c, c ∈ (broadcastPrune room payload excl dead).1.clients ↔
      c ∈ room.clients ∧ (excl = some c.id ∨ c.id ∉ dead)) ∧
    (∀ e ∈ (broadcastPrune room payload excl dead).2, ∃ c, c ∈ room.clients ∧
      excl ≠ some c.id ∧ c.id ∉ dead ∧ e = Event.toClient c.id payload) ∧
    (broadcastPrune room payload excl dead).1.drawer_index = room.drawer_index ∧
    (broadcastPrune room payload excl dead).1.current_word = room.current_word ∧
    (broadcastPrune room payload excl dead).1.mode = room.mode ∧
    (broadcastPrune room payload excl dead).1.locked = room.locked := by
  refine ⟨?_, ?_, rfl, rfl, rfl, rfl⟩
  · intro c
    show c ∈ room.clients.filter _ ↔ _
    rw [List.mem_filter]
    constructor
    · rintro ⟨hm, hb⟩
      refine ⟨hm, ?_⟩
      by_cases h1 : excl = some c.id
      · exact Or.inl h1
      · right
        intro hd
        simp [h1, hd] at hb
    · rintro ⟨hm, h⟩
      refine ⟨hm, ?_⟩
      rcases h with h | h <;> simp [h]
  · intro e he
    rw [show (broadcastPrune room payload excl dead).2
        = room.clients.filterMap _ from rfl, List.mem_filterMap] at he
    obtain ⟨c, hc, hfc⟩ := he
    by_cases h1 : excl = some c.id
    · rw [if_pos h1] at hfc
      exact absurd hfc (by simp)
    · rw [if_neg h1] at hfc
      by_cases h2 : c.id ∈ dead
      · rw [if_pos h2] at hfc
        exact absurd hfc (by simp)
      · rw [if_neg h2] at hfc
        exact ⟨c, hc, h1, h2, (Option.some_inj.mp hfc).symm⟩

/-- Witness for `broadcastPrune_spec` at `demoRoom` with `alice` dead. -/
theorem broadcastPrune_spec_witness :
    (bob ∈ (broadcastPrune demoRoom (.system "hi") none [0]).1.clients ↔
      bob ∈ demoRoom.clients ∧ (none = some bob.id ∨ bob.id ∉ [0])) ∧
    (∃ c, c ∈ demoRoom.clients ∧ none ≠ some c.id ∧ c.id ∉ [0] ∧
      Event.toClient 1 (Msg.system "hi") = Event.toClient c.id (Msg.system "hi")) :=
  ⟨(broadcastPrune_spec demoRoom (.system "hi") none [0]).1 bob,
    (broadcastPrune_spec demoRoom (.system "hi") none [0]).2.1
      (Event.toClient 1 (Msg.system "hi")) (by decide)⟩

/-- A well-formed registry: no stored room has an empty client list. -/
def regWF (R : Registry) : Prop := ∀ p ∈ R, p.2.clients ≠ []

theorem mem_regSet {R : Registry} {code : String} {room : RoomState}
    {p : String × RoomState} (h : p ∈ regSet R code room) :
    (p ∈ R ∧ p.1 ≠ code) ∨ p = (code, room) := by
  unfold regSet at h
  split at h
  · rw [List.mem_map] at h
    obtain ⟨q, hq, hqe⟩ := h
    by_cases hc : q.1 = code
    · right
      rw [← hqe, if_pos hc]
    · left
      rw [← hqe, if_neg hc]
      exact ⟨hq, hc⟩
  · next hnone =>
    rw [List.mem_append] at h
    rcases h with h | h
    · left
      refine ⟨h, ?_⟩
      intro hc
      have hex : ((R.find? fun q => q.1 = code)).isSome = true := by
        rw [List.find?_isSome]
        exact ⟨p, h, by simp [hc]⟩
      exact absurd hex hnone
    · right
      simpa using h

theorem regFind_nonempty {R : Registry} {code : String} {r : RoomState}
    (hwf : regWF R) (h : regFind R code = some r) : r.clients ≠ [] := by
  unfold regFind at h
  cases hf : R.find? fun p => p.1 = code with
  | none => rw [hf] at h; simp at h
  | some q =>
    rw [hf] at h
    have hq : q ∈ R := List.mem_of_find?_eq_some hf
    have hcl := hwf q hq
    have hqr : q.2 = r := by simpa using h
    rw [← hqr]
    exact hcl

theorem clients_handleJoin_len (room : RoomState) (code : String) (id : Nat)
    (raw : Option String) (now : Nat) (w : String) (opts : List String)
    (h : room.locked = false) :
    (handleJoin room code id raw now w opts).1.clients.length =
      room.clients.length + 1 := by
  unfold handleJoin
  rw [if_neg (by simp [h])]
  simp only []
  rw [length_start_round, length_ensure]
  simp

theorem regWF_applyReg (R : Registry) (op : RegOp) (h : regWF R) :
    regWF (applyReg R op) := by
  cases op with
  | join rawRoom gen id rawName now w opts =>
    show regWF (regJoin R rawRoom gen id rawName now w opts).1
    unfold regJoin
    simp only []
    split
    · next hlk =>
      intro p hp
      rcases mem_regSet hp with ⟨hin, _⟩ | rfl
      · exact h p hin
      · cases hfind : regFind R (normalizeRoomCode rawRoom gen) with
        | none =>
          rw [hfind] at hlk
          exact absurd hlk (by simp [RoomState.init])
        | some r =>
          simpa using regFind_nonempty h hfind
    · next hlk =>
      intro p hp
      rcases mem_regSet hp with ⟨hin, hne⟩ | rfl
      · rcases mem_regSet hin with ⟨hin', _⟩ | rfl
        · exact h p hin'
        · exact absurd rfl hne
      · simp only []
        intro hnil
        have hlen := clients_handleJoin_len ((regFind R (normalizeRoomCode rawRoom gen)).getD
          RoomState.init) (normalizeRoomCode rawRoom gen) id rawName now w opts
          (by simpa using hlk)
        rw [hnil] at hlen
        simp at hlen
  | leave code id w opts =>
    show regWF (regLeave R code id w opts).1
    unfold regLeave
    cases hfind : regFind R code with
    | none => exact h
    | some room =>
      simp only []
      split
      · split
        · intro p hp
          have hp' : p ∈ R := by
            have := hp
            simp only [regRemove, List.mem_filter] at this
            exact this.1
          exact h p hp'
        · next hne =>
          intro p hp
          rcases mem_regSet hp with ⟨hin, _⟩ | rfl
          · exact h p hin
          · exact hne
      · exact h

theorem regWF_foldl (ops : List RegOp) (R : Registry) (h : regWF R) :
    regWF (ops.foldl applyReg R) := by
  induction ops generalizing R with
  | nil => exact h
  | cons op rest ih => exact ih (applyReg R op) (regWF_applyReg R op h)

/-- A one-client room whose single member is not a drawer. -/
def soloRoom : RoomState :=
  { clients := [{ alice with is_drawer := false }], drawer_index := 0,
    current_word := "", mode := "random", locked := false }

/-- C7, counterexample: a registry holding the one-client room `AB`
suffers a delivery failure to that client during a broadcast; the
pruning empties the room's client list but the registry entry stays, so
the registry contains a `RoomState` with an empty client list and its
size no longer equals the number of rooms with at least one client. -/
theorem registry_keeps_empty_room :
    ((regPrune [("AB", soloRoom)] "AB" (.system "hi") none [0]).1.length = 1) ∧
    ((regPrune [("AB", soloRoom)] "AB" (.system "hi") none [0]).1.any
      (fun p => p.2.clients.isEmpty) = true) := by
  decide

/-- C7 (amended): a `RoomState` is created on first reference to an
unseen room code and removed when a client's disconnect cleanup leaves
the client list empty; under any sequence of join and disconnect
operations (with no delivery failures) the registry never contains a
`RoomState` with an empty client list, and its size equals the number of
rooms with at least one client.  A room emptied by delivery-failure
pruning, however, remains in the registry (see the counterexample). -/
theorem registry_no_empty_rooms (ops : List RegOp) :
    regWF (ops.foldl applyReg []) ∧
    (ops.foldl applyReg []).length =
      ((ops.foldl applyReg []).filter fun p => !p.2.clients.isEmpty).length := by
  have hwf : regWF (ops.foldl applyReg []) :=
    regWF_foldl ops [] (by intro p hp; simp at hp)
  refine ⟨hwf, ?_⟩
  rw [List.filter_eq_self.mpr]
  intro p hp
  have hne := hwf p hp
  cases hc : p.2.clients with
  | nil => exact absurd hc hne
  | cons a l => simp [hc]

/-- Witness for `registry_no_empty_rooms` at a concrete operation list. -/
theorem registry_no_empty_rooms_witness :
    regWF ([RegOp.join "ab" "XY" 0 (some "alice") 5 "apple" []].foldl applyReg []) ∧
    ([RegOp.join "ab" "XY" 0 (some "alice") 5 "apple" []].foldl applyReg []).length =
      (([RegOp.join "ab" "XY" 0 (some "alice") 5 "apple" []].foldl applyReg []).filter
        fun p => !p.2.clients.isEmpty).length :=
  registry_no_empty_rooms [RegOp.join "ab" "XY" 0 (some "alice") 5 "apple" []]

theorem pyLower_eq_empty {s : String} (h : pyLower s = "") : s = "" := by
  have hd : s.data.map Char.toLower = [] := congrArg String.data h
  rw [List.map_eq_nil_iff] at hd
  cases s
  simp only at hd
  subst hd
  rfl

theorem tick_name (now : Nat) (c : Client) :
    (tick_and_rate_limit now c).name = c.name := by
  unfold tick_and_rate_limit
  split <;> rfl

/-- C2: a non-drawer's guess that matches the non-empty `currentWord`
case-insensitively (after stripping) makes the handler broadcast the
chat line and the `correct` event carrying the guesser's name and the
word to everyone, advance `drawerIndex` to `(drawerIndex + 1) mod
len(clients)`, clear `currentWord` to the empty string, broadcast a
canvas-clear, and re-enter `start_round`, provided the room has at least
2 clients (and the guess survived the rate limiter). -/
theorem correct_guess_advances (room : RoomState) (sid : Nat) (text : String)
    (now : Nat) (w : String) (opts : List String) (c : Client)
    (hfind : findClient room sid = some c)
    (hdr : (tick_and_rate_limit now c).is_drawer = false)
    (hrl : (tick_and_rate_limit now c).guess_count + 1 ≤ GUESS_RATE_PER_SEC)
    (hcw : room.current_word ≠ "")
    (hmatch : pyLower (pyStrip text) = pyLower room.current_word)
    (h2 : 2 ≤ room.clients.length) :
    handleGuess room sid text now w opts =
      ((start_round { updateClient room sid
          { tick_and_rate_limit now c with
            guess_count := (tick_and_rate_limit now c).guess_count + 1 } with
          drawer_index := (room.drawer_index + 1) % room.clients.length,
          current_word := "" } w opts).1,
        Event.toAll none (.chat c.name (censor (pyStrip text))) ::
        Event.toAll none (.correct c.name room.current_word) ::
        Event.toAll none .clear ::
        (start_round { updateClient room sid
          { tick_and_rate_limit now c with
            guess_count := (tick_and_rate_limit now c).guess_count + 1 } with
          drawer_index := (room.drawer_index + 1) % room.clients.length,
          current_word := "" } w opts).2) := by
  have hne : pyStrip text ≠ "" := by
    intro h0
    exact hcw (pyLower_eq_empty (by rw [← hmatch, h0]; rfl))
  unfold handleGuess
  rw [hfind]
  simp only [hdr, Bool.false_eq_true, if_false]
  rw [if_neg (by exact Nat.not_lt.mpr hrl)]
  rw [if_neg hne]
  rw [if_pos (by exact ⟨hcw, hmatch⟩)]
  rw [if_pos (by show 2 ≤ _; unfold updateClient; simp only []; rw [length_setFirst]; exact h2)]
  show (_, _) = (_, _)
  unfold updateClient
  simp only []
  rw [length_setFirst, tick_name]
  simp [ROUND_CLEAR_ON_CORRECT]

/-- Witness for `correct_guess_advances`: `bob` guesses `" Apple "` in
`demoRoom` (whose word is `apple`). -/
theorem correct_guess_advances_witness :
    handleGuess demoRoom 1 " Apple " 5 "dog" [] =
      ((start_round { updateClient demoRoom 1
          { tick_and_rate_limit 5 bob with
            guess_count := (tick_and_rate_limit 5 bob).guess_count + 1 } with
          drawer_index := (demoRoom.drawer_index + 1) % demoRoom.clients.length,
          current_word := "" } "dog" []).1,
        Event.toAll none (.chat bob.name (censor (pyStrip " Apple "))) ::
        Event.toAll none (.correct bob.name demoRoom.current_word) ::
        Event.toAll none .clear ::
        (start_round { updateClient demoRoom 1
          { tick_and_rate_limit 5 bob with
            guess_count := (tick_and_rate_limit 5 bob).guess_count + 1 } with
          drawer_index := (demoRoom.drawer_index + 1) % demoRoom.clients.length,
          current_word := "" } "dog" []).2) :=
  correct_guess_advances demoRoom 1 " Apple " 5 "dog" [] bob (by decide) (by decide)
    (by decide) (by decide) (by decide) (by decide)

/-- C10: correctness of a guess is judged on the original stripped text,
not the censored one: the chat line broadcast to the room carries
`censor` of the stripped guess, while the match against `currentWord`
compares the stripped guess itself (lower-cased) — so a guess equal to
`currentWord` is judged correct even when its text contains a censored
word. -/
theorem guess_match_uncensored (room : RoomState) (sid : Nat) (text : String)
    (now : Nat) (w : String) (opts : List String) (c : Client)
    (hfind : findClient room sid = some c)
    (hdr : (tick_and_rate_limit now c).is_drawer = false)
    (hrl : (tick_and_rate_limit now c).guess_count + 1 ≤ GUESS_RATE_PER_SEC)
    (hne : pyStrip text ≠ "") :
    ((handleGuess room sid text now w opts).2.head? = some (Event.toAll none
      (.chat c.name (censor (pyStrip text))))) ∧
    (room.current_word ≠ "" → pyLower (pyStrip text) = pyLower room.current_word →
      Event.toAll none (.correct c.name room.current_word) ∈
        (handleGuess room sid text now w opts).2) := by
  unfold handleGuess
  rw [hfind]
  simp only [hdr, Bool.false_eq_true, if_false]
  rw [if_neg (by exact Nat.not_lt.mpr hrl)]
  rw [if_neg hne]
  rw [tick_name]
  constructor
  · split
    · split <;> rfl
    · rfl
  · intro hcw hmatch
    rw [if_pos (by exact ⟨hcw, hmatch⟩)]
    split <;> exact List.mem_cons_of_mem _ (List.mem_cons_self _ _)

/-- Room `demoRoom` with a current word that contains a profanity. -/
def censorRoom : RoomState := { demoRoom with current_word := "dummy cat" }

/-- Witness for `guess_match_uncensored`: `bob` guesses `"Dummy Cat"`
against the word `"dummy cat"`; the chat line is censored to
`"*** Cat"`, yet the guess is judged correct. -/
theorem guess_match_uncensored_witness :
    ((handleGuess censorRoom 1 "Dummy Cat" 5 "x" []).2.head? = some (Event.toAll none
      (.chat bob.name (censor (pyStrip "Dummy Cat"))))) ∧
    (Event.toAll none (.correct bob.name censorRoom.current_word) ∈
      (handleGuess censorRoom 1 "Dummy Cat" 5 "x" []).2) ∧
    censor (pyStrip "Dummy Cat") ≠ pyStrip "Dummy Cat" :=
  ⟨(guess_match_uncensored censorRoom 1 "Dummy Cat" 5 "x" [] bob (by decide)
      (by decide) (by decide) (by decide)).1,
    (guess_match_uncensored censorRoom 1 "Dummy Cat" 5 "x" [] bob (by decide)
      (by decide) (by decide) (by decide)).2 (by decide) (by decide),
    by decide⟩

theorem digitChar_toNat {n : Nat} (h : n < 10) : (Nat.digitChar n).toNat = 48 + n := by
  interval_cases n <;> rfl

theorem decVal_append_digit (l : List Char) (c : Char) :
    decVal (l ++ [c]) = decVal l * 10 + (c.toNat - 48) := by
  unfold decVal
  rw [List.foldl_append]
  rfl

theorem decVal_decAux : ∀ fuel n, n ≤ fuel → decVal (decAux (fuel + 1) n) = n := by
  intro fuel
  induction fuel with
  | zero =>
    intro n hn
    have h0 : n = 0 := Nat.le_zero.mp hn
    subst h0
    decide
  | succ fuel ih =>
    intro n hn
    by_cases h10 : n < 10
    · rw [show decAux (fuel + 1 + 1) n = [Nat.digitChar n] from by
        simp only [decAux]; rw [if_pos h10]]
      show 0 * 10 + ((Nat.digitChar n).toNat - 48) = n
      rw [digitChar_toNat h10]
      omega
    · rw [show decAux (fuel + 1 + 1) n
          = decAux (fuel + 1) (n / 10) ++ [Nat.digitChar (n % 10)] from by
        simp only [decAux]; rw [if_neg h10]]
      rw [decVal_append_digit]
      rw [ih (n / 10) (by omega)]
      rw [digitChar_toNat (Nat.mod_lt n (by norm_num))]
      omega

theorem decRepr_inj {n m : Nat} (h : decRepr n = decRepr m) : n = m := by
  have hd : decAux (n + 1) n = decAux (m + 1) m := congrArg String.data h
  have hn := decVal_decAux n n (le_refl n)
  have hm := decVal_decAux m m (le_refl m)
  rw [← hn, ← hm, hd]

theorem data_mkName (base : String) (n : Nat) :
    (mkName base n).data = base.data ++ (' ' :: '(' :: ((decRepr n).data ++ [')'])) := by
  unfold mkName
  rcases base with ⟨bl⟩
  rcases h : decRepr n with ⟨dl⟩
  show (String.mk bl ++ String.mk [' ', '('] ++ String.mk dl ++ String.mk [')']).data = _
  simp [String.instAppend, String.append, h]

theorem mkName_inj {base : String} {n m : Nat} (h : mkName base n = mkName base m) :
    n = m := by
  have hd := congrArg String.data h
  rw [data_mkName, data_mkName] at hd
  have h1 := List.append_cancel_left hd
  simp only [List.cons.injEq, true_and] at h1
  have h2 : (decRepr n).data = (decRepr m).data := List.append_cancel_right h1
  apply decRepr_inj
  rcases hn : decRepr n with ⟨ln⟩
  rcases hm : decRepr m with ⟨lm⟩
  rw [hn, hm] at h2
  simp only at h2
  rw [h2]

theorem exists_free_suffix (names : List String) (base : String) :
    ∃ k, 2 ≤ k ∧ k < names.length + 3 ∧ mkName base k ∉ names := by
  by_contra hcon
  push_neg at hcon
  have hsub : (Finset.Ico 2 (names.length + 3)).image (mkName base) ⊆ names.toFinset := by
    intro x hx
    rw [Finset.mem_image] at hx
    obtain ⟨k, hk, rfl⟩ := hx
    rw [Finset.mem_Ico] at hk
    rw [List.mem_toFinset]
    exact hcon k hk.1 hk.2
  have hcard : ((Finset.Ico 2 (names.length + 3)).image (mkName base)).card
      = names.length + 1 := by
    rw [Finset.card_image_of_injOn (fun a _ b _ hab => mkName_inj hab)]
    rw [Nat.card_Ico]
    omega
  have hle := Finset.card_le_card hsub
  rw [hcard] at hle
  have htf := List.toFinset_card_le names
  omega

theorem uniqueLoop_spec (names : List String) (base : String) :
    ∀ (fuel n₀ : Nat),
      (∃ k, n₀ ≤ k ∧ k < n₀ + fuel ∧ mkName base k ∉ names) →
      mkName base (uniqueLoop names base fuel n₀) ∉ names ∧
      n₀ ≤ uniqueLoop names base fuel n₀ ∧
      ∀ m, n₀ ≤ m → m < uniqueLoop names base fuel n₀ → mkName base m ∈ names := by
  intro fuel
  induction fuel with
  | zero =>
    intro n₀ h
    exfalso
    obtain ⟨k, hk1, hk2, _⟩ := h
    omega
  | succ fuel ih =>
    intro n₀ h
    obtain ⟨k, hk1, hk2, hk3⟩ := h
    by_cases hmem : mkName base n₀ ∈ names
    · have hk1' : n₀ + 1 ≤ k := by
        rcases Nat.eq_or_lt_of_le hk1 with rfl | hlt
        · exact absurd hmem hk3
        · omega
      obtain ⟨ha, hb, hc⟩ := ih (n₀ + 1) ⟨k, hk1', by omega, hk3⟩
      rw [show uniqueLoop names base (fuel + 1) n₀ = uniqueLoop names base fuel (n₀ + 1)
        from by simp only [uniqueLoop]; rw [if_pos hmem]]
      refine ⟨ha, by omega, ?_⟩
      intro m hm1 hm2
      rcases Nat.eq_or_lt_of_le hm1 with rfl | hlt
      · exact hmem
      · exact hc m hlt hm2
    · rw [show uniqueLoop names base (fuel + 1) n₀ = n₀
        from by simp only [uniqueLoop]; rw [if_neg hmem]]
      exact ⟨hmem, le_refl n₀, fun m hm1 hm2 => absurd hm1 (by omega)⟩

/-- C8: `unique_name(room, desired)` returns `desired` unchanged when no
current member's name equals `desired`; otherwise it returns
`desired ++ " (n)"` for the smallest integer `n ≥ 2` whose result equals
no existing member's name — and in every case the returned name differs
from every current member's name. -/
theorem unique_name_spec (room : RoomState) (desired : String) :
    (desired ∉ room.clients.map (·.name) → unique_name room desired = desired) ∧
    (desired ∈ room.clients.map (·.name) → ∃ n, 2 ≤ n ∧
      unique_name room desired = mkName desired n ∧
      mkName desired n ∉ room.clients.map (·.name) ∧
      ∀ m, 2 ≤ m → m < n → mkName desired m ∈ room.clients.map (·.name)) ∧
    unique_name room desired ∉ room.clients.map (·.name) := by
  obtain ⟨k, hk1, hk2, hk3⟩ := exists_free_suffix (room.clients.map (·.name)) desired
  obtain ⟨ha, hb, hc⟩ := uniqueLoop_spec (room.clients.map (·.name)) desired
    ((room.clients.map (·.name)).length + 1) 2 ⟨k, hk1, by omega, hk3⟩
  refine ⟨?_, ?_, ?_⟩
  · intro h
    unfold unique_name
    simp only []
    rw [if_neg h]
  · intro h
    refine ⟨uniqueLoop (room.clients.map (·.name)) desired
      ((room.clients.map (·.name)).length + 1) 2, hb, ?_, ha, hc⟩
    unfold unique_name
    simp only []
    rw [if_pos h]
  · by_cases h : desired ∈ room.clients.map (·.name)
    · unfold unique_name
      simp only []
      rw [if_pos h]
      exact ha
    · unfold unique_name
      simp only []
      rw [if_neg h]
      exact h

/-- Witness for `unique_name_spec`: a fresh name passes through
unchanged, while joining `demoRoom` as a second `bob` yields a suffixed
non-colliding name. -/
theorem unique_name_spec_witness :
    (unique_name demoRoom "carol" = "carol") ∧
    (∃ n, 2 ≤ n ∧ unique_name demoRoom "bob" = mkName "bob" n ∧
      mkName "bob" n ∉ demoRoom.clients.map (·.name) ∧
      ∀ m, 2 ≤ m → m < n → mkName "bob" m ∈ demoRoom.clients.map (·.name)) ∧
    unique_name demoRoom "bob" ∉ demoRoom.clients.map (·.name) :=
  ⟨(unique_name_spec demoRoom "carol").1 (by decide),
    (unique_name_spec demoRoom "bob").2.1 (by decide),
    (unique_name_spec demoRoom "bob").2.2⟩

end Pictionary
